import Mathlib

/-!
Verification of `clean_parsed_conversations.py`.

The script's core is `clean_messages`, a linear pass over a JSON array of
message records (Python dicts).  We embed JSON values as a mutual inductive
type, records as association lists with Python-dict semantics for
`get`/`__setitem__`/`pop`, and the cleaning pass as a function into
`Except PyErr` (Python exceptions abort the whole run).

Python's `datetime.fromtimestamp(ts, tz=timezone.utc).replace(microsecond=0)
.isoformat().replace("+00:00", "Z")` is modelled over exact rationals: the
instant is floored to whole seconds (`replace(microsecond=0)` truncates the
time-of-day, i.e. floors the epoch value) and rendered through the proleptic
Gregorian calendar; `fromtimestamp` raises outside the years 1..9999 that
`datetime` supports, which the embedding mirrors with a range guard.
-/

set_option autoImplicit false
set_option maxRecDepth 1000000

mutual
/-- A JSON-compatible Python value, as produced by `json.load`. -/
inductive JVal : Type where
  | null : JVal
  | bool (b : Bool) : JVal
  | num (q : ℚ) : JVal
  | str (s : String) : JVal
  | arr (elems : JArr) : JVal
  | obj (fields : JObj) : JVal
  deriving DecidableEq
/-- A JSON array (list of values). -/
inductive JArr : Type where
  | nil : JArr
  | cons (v : JVal) (rest : JArr) : JArr
  deriving DecidableEq
/-- A JSON object (ordered fields, as a Python dict). -/
inductive JObj : Type where
  | nil : JObj
  | cons (k : String) (v : JVal) (rest : JObj) : JObj
  deriving DecidableEq
end

/-- A message record: a top-level JSON object / Python dict. -/
abbrev Record := List (String × JVal)

/-- `m.get(k)` without default: first binding of `k`, if any. -/
def dget (m : Record) (k : String) : Option JVal :=
  (m.find? (fun p => p.1 == k)).map Prod.snd

/-- `m[k] = v`: overwrite the binding in place if present, else append. -/
def dset : Record → String → JVal → Record
  | [], k, v => [(k, v)]
  | (a, b) :: rest, k, v =>
    if a == k then (k, v) :: rest else (a, b) :: dset rest k v

/-- `m.pop(k, None)`: remove the binding of `k` if present. -/
def dpop : Record → String → Record
  | [], _ => []
  | (a, b) :: rest, k =>
    if a == k then dpop rest k else (a, b) :: dpop rest k

/-- Lookup in a nested JSON object (`dict.get` on `metadata`). -/
def dgetObj : JObj → String → Option JVal
  | .nil, _ => none
  | .cons k' v rest, k => if k' == k then some v else dgetObj rest k

/-- The Python exceptions the cleaning pass can raise. -/
inductive PyErr : Type where
  | attributeError : PyErr
  | valueError : PyErr
  deriving DecidableEq

instance {ε α : Type} [DecidableEq ε] [DecidableEq α] : DecidableEq (Except ε α) := fun a b =>
  match a, b with
  | .ok x, .ok y =>
    if h : x = y then .isTrue (by rw [h]) else .isFalse (fun hc => h (Except.ok.inj hc))
  | .error e, .error f =>
    if h : e = f then .isTrue (by rw [h]) else .isFalse (fun hc => h (Except.error.inj hc))
  | .ok _, .error _ => .isFalse (fun hc => Except.noConfusion hc)
  | .error _, .ok _ => .isFalse (fun hc => Except.noConfusion hc)

/-- `msg.get("content", "") == ""`: true when `content` is absent (the
default `""` compares equal to `""`) or is the empty string; a present
non-string value never equals `""` in Python. -/
def pyEmptyContent (m : Record) : Bool :=
  match dget m "content" with
  | none => true
  | some (.str s) => s == ""
  | some _ => false

/-- `ts in (None, "", "null")`: the sentinel timestamp values. -/
def isSentinel : JVal → Bool
  | .null => true
  | .str s => s == "" || s == "null"
  | _ => false

/-- `msg.get("metadata", {}).get("conversation_create_time")`: when
`metadata` is absent the default `{}` yields `None`; when present but not a
dict, the `.get` attribute lookup raises `AttributeError`. -/
def fallbackTs (m : Record) : Except PyErr JVal :=
  match (dget m "metadata").getD (JVal.obj .nil) with
  | .obj fields => .ok ((dgetObj fields "conversation_create_time").getD JVal.null)
  | _ => .error .attributeError

/-- The working timestamp value `ts` after the fallback step (lines 41-43):
`msg.get("timestamp")`, replaced by the metadata fallback when a sentinel. -/
def workingTs (m : Record) : Except PyErr JVal :=
  let ts0 := (dget m "timestamp").getD JVal.null
  if isSentinel ts0 then fallbackTs m else .ok ts0

/-- `isinstance(ts, (int, float))` — Python `bool` is a subclass of `int`. -/
def isNumericLike : JVal → Bool
  | .num _ => true
  | .bool _ => true
  | _ => false

/-- The numeric value of a numeric-like JSON value (`True` counts as 1). -/
def ratOfNumeric : JVal → ℚ
  | .num q => q
  | .bool b => if b then 1 else 0
  | _ => 0

/-- Proleptic Gregorian leap-year rule (`datetime`'s calendar). -/
def isLeap (y : Nat) : Bool :=
  decide (y % 4 = 0 ∧ (y % 100 ≠ 0 ∨ y % 400 = 0))

/-- Days in calendar year `y`. -/
def daysInYear (y : Nat) : Nat :=
  if isLeap y then 366 else 365

/-- Month lengths, February depending on the leap flag. -/
def monthLengths (leap : Bool) : List Nat :=
  [31, if leap then 29 else 28, 31, 30, 31, 30, 31, 31, 30, 31, 30, 31]

/-- Walk years forward from `y`, consuming `rem` days (fuel-bounded). -/
def yearLoop : Nat → Nat → Nat → Nat × Nat
  | 0, y, rem => (y, rem)
  | f + 1, y, rem =>
    if rem < daysInYear y then (y, rem) else yearLoop f (y + 1) (rem - daysInYear y)

/-- Walk the month-length list, consuming `rem` days. -/
def monthLoop : List Nat → Nat → Nat → Nat × Nat
  | [], mo, rem => (mo, rem)
  | len :: rest, mo, rem =>
    if rem < len then (mo, rem) else monthLoop rest (mo + 1) (rem - len)

/-- Civil date `(year, month, day)` of day number `n`, with day 0 being
0001-01-01 in the proleptic Gregorian calendar.  A 400-year Gregorian era
spans exactly 146097 days, so whole eras are skipped by division and the
year walk covers at most 401 years. -/
def civilFromDays (n : Nat) : Nat × Nat × Nat :=
  let yd := yearLoop 401 (400 * (n / 146097) + 1) (n % 146097)
  let md := monthLoop (monthLengths (isLeap yd.1)) 0 yd.2
  (yd.1, md.1 + 1, md.2 + 1)

/-- Days from 0001-01-01 to the start of year `y` (closed form). -/
def daysBeforeYear (y : Nat) : Nat :=
  365 * (y - 1) + (y - 1) / 4 - (y - 1) / 100 + (y - 1) / 400

/-- Day number (from 0001-01-01) of the civil date `(y, mo, d)`. -/
def daysFromCivil (y mo d : Nat) : Nat :=
  daysBeforeYear y + ((monthLengths (isLeap y)).take (mo - 1)).sum + (d - 1)

/-- Epoch second of 0001-01-01T00:00:00Z, `datetime.min` in UTC. -/
def minEpoch : Int := -62135596800

/-- Epoch second of 9999-12-31T23:59:59Z, `datetime.max` in whole seconds. -/
def maxEpoch : Int := 253402300799

/-- Whole seconds within `datetime`'s representable range. -/
def inRangeSec (t : Int) : Bool :=
  decide (minEpoch ≤ t ∧ t ≤ maxEpoch)

/-- Two-digit zero-padded decimal rendering. -/
def pad2 (n : Nat) : List Char :=
  [Nat.digitChar (n / 10 % 10), Nat.digitChar (n % 10)]

/-- Four-digit zero-padded decimal rendering. -/
def pad4 (n : Nat) : List Char :=
  [Nat.digitChar (n / 1000 % 10), Nat.digitChar (n / 100 % 10),
   Nat.digitChar (n / 10 % 10), Nat.digitChar (n % 10)]

/-- Render a whole epoch second as `YYYY-MM-DDTHH:MM:SSZ` (UTC). -/
def isoOfSec (t : Int) : String :=
  let off := (t - minEpoch).toNat
  let c := civilFromDays (off / 86400)
  let sod := off % 86400
  String.mk (pad4 c.1 ++ ['-'] ++ pad2 c.2.1 ++ ['-'] ++ pad2 c.2.2 ++ ['T'] ++
    pad2 (sod / 3600) ++ [':'] ++ pad2 (sod % 3600 / 60) ++ [':'] ++
    pad2 (sod % 60) ++ ['Z'])

/-- `numeric_ts_to_iso` (source lines 26-28): floor the epoch value to whole
seconds (`replace(microsecond=0)`) and render in UTC with a `Z` suffix. -/
def numeric_ts_to_iso (q : ℚ) : String :=
  isoOfSec (Rat.floor q)

/-- Numeric value of a decimal digit character. -/
def digitVal (c : Char) : Option Nat :=
  if c.isDigit then some (c.toNat - 48) else none

/-- Run a shape pattern over a character list: `none` entries demand a
decimal digit (collected in order), `some c` entries demand the literal
character `c`; the input must be consumed exactly. -/
def parseShape : List Char → List (Option Char) → Option (List Nat)
  | [], [] => some []
  | c :: cs, none :: ps =>
    match digitVal c, parseShape cs ps with
    | some v, some vs => some (v :: vs)
    | _, _ => none
  | c :: cs, some c' :: ps =>
    if c == c' then parseShape cs ps else none
  | _, _ => none

/-- The `YYYY-MM-DDTHH:MM:SSZ` shape pattern. -/
def isoPattern : List (Option Char) :=
  [none, none, none, none, some (Char.ofNat 45), none, none, some (Char.ofNat 45),
   none, none, some (Char.ofNat 84), none, none, some (Char.ofNat 58),
   none, none, some (Char.ofNat 58), none, none, some (Char.ofNat 90)]

/-- The field values rendered into the ISO string, digit by digit. -/
def isoDigits (y mo d h mi s : Nat) : List Nat :=
  [y / 1000 % 10, y / 100 % 10, y / 10 % 10, y % 10,
   mo / 10 % 10, mo % 10, d / 10 % 10, d % 10,
   h / 10 % 10, h % 10, mi / 10 % 10, mi % 10,
   s / 10 % 10, s % 10]

/-- Check the exact `YYYY-MM-DDTHH:MM:SSZ` shape of a string. -/
def isIsoShape (s : String) : Bool :=
  (parseShape s.data isoPattern).isSome

/-- Combine parsed date and time-of-day fields into an epoch second. -/
def epochOfFields (y mo d h mi sec : Nat) : Int :=
  minEpoch + 86400 * (daysFromCivil y mo d : Int) +
    ((3600 * h + 60 * mi + sec : Nat) : Int)

/-- Decode the 14 digits collected from the ISO shape into an epoch second. -/
def epochOfDigits (ds : List Nat) : Int :=
  epochOfFields
    (1000 * ds.getD 0 0 + 100 * ds.getD 1 0 + 10 * ds.getD 2 0 + ds.getD 3 0)
    (10 * ds.getD 4 0 + ds.getD 5 0)
    (10 * ds.getD 6 0 + ds.getD 7 0)
    (10 * ds.getD 8 0 + ds.getD 9 0)
    (10 * ds.getD 10 0 + ds.getD 11 0)
    (10 * ds.getD 12 0 + ds.getD 13 0)

/-- Parse a `YYYY-MM-DDTHH:MM:SSZ` string back to its epoch second. -/
def parseIso (s : String) : Option Int :=
  match parseShape s.data isoPattern with
  | some ds => some (epochOfDigits ds)
  | none => none

/-- One iteration of the loop body of `clean_messages` (source lines 35-53):
`none` when the record is dropped, `some` with the mutated record otherwise;
exceptions propagate. -/
def cleanRecord (m : Record) : Except PyErr (Option Record) :=
  if pyEmptyContent m then .ok none
  else
    match workingTs m with
    | .error e => .error e
    | .ok ts =>
      if isNumericLike ts then
        let sec := Rat.floor (ratOfNumeric ts)
        if inRangeSec sec then
          .ok (some (dset m "timestamp" (.str (numeric_ts_to_iso (ratOfNumeric ts)))))
        else .error .valueError
      else if ts = JVal.null then .ok (some (dpop m "timestamp"))
      else .ok (some m)

/-- `clean_messages` (source lines 31-55): apply `cleanRecord` in order,
collecting the surviving records; an exception aborts the whole pass. -/
def clean_messages : List Record → Except PyErr (List Record)
  | [] => .ok []
  | m :: rest =>
    match cleanRecord m with
    | .error e => .error e
    | .ok none => clean_messages rest
    | .ok (some r) => (clean_messages rest).map (fun out => r :: out)

/-- The `metadata` field is absent or a JSON mapping (so that `.get` on it
cannot raise). -/
def metadataIsMapping (m : Record) : Bool :=
  match dget m "metadata" with
  | none => true
  | some (.obj _) => true
  | some _ => false

/-- Decidable per-record safety condition: if the timestamp is a sentinel
(the fallback path is taken), `metadata` must be absent or a mapping; and a
numeric working timestamp must lie in `datetime`'s representable range. -/
def recOkB (m : Record) : Bool :=
  (!isSentinel ((dget m "timestamp").getD JVal.null) || metadataIsMapping m) &&
  (match workingTs m with
   | .ok ts => !isNumericLike ts || inRangeSec (Rat.floor (ratOfNumeric ts))
   | .error _ => true)

/-! ## Association-list (Python dict) lemmas -/

theorem dget_nil (k : String) : dget [] k = none := rfl

theorem dget_cons (a : String) (b : JVal) (rest : Record) (k : String) :
    dget ((a, b) :: rest) k = if a == k then some b else dget rest k := by
  by_cases h : a == k
  · simp [dget, List.find?_cons_of_pos, h]
  · simp only [Bool.not_eq_true] at h
    simp [dget, List.find?_cons_of_neg, h]

theorem dget_dset_self (m : Record) (k : String) (v : JVal) :
    dget (dset m k v) k = some v := by
  induction m with
  | nil => simp [dset, dget_cons]
  | cons hd tl ih =>
    obtain ⟨a, b⟩ := hd
    rw [dset]
    by_cases ha : a == k
    · rw [if_pos ha, dget_cons, if_pos (by simp)]
    · rw [if_neg ha, dget_cons, if_neg ha, ih]

theorem dget_dset_ne (m : Record) (k : String) (v : JVal) (k' : String)
    (hne : k ≠ k') :
    dget (dset m k v) k' = dget m k' := by
  have hkk' : (k == k') = false := by simpa using hne
  induction m with
  | nil => simp [dset, dget_cons, hkk']
  | cons hd tl ih =>
    obtain ⟨a, b⟩ := hd
    rw [dset]
    by_cases ha : a == k
    · have hak : a = k := by simpa using ha
      subst hak
      rw [if_pos ha, dget_cons, dget_cons, if_neg (by simp [hkk']), if_neg (by simp [hkk'])]
    · rw [if_neg ha, dget_cons, dget_cons, ih]

theorem dget_dpop_self (m : Record) (k : String) :
    dget (dpop m k) k = none := by
  induction m with
  | nil => rfl
  | cons hd tl ih =>
    obtain ⟨a, b⟩ := hd
    rw [dpop]
    by_cases ha : a == k
    · rw [if_pos ha]
      exact ih
    · rw [if_neg ha, dget_cons, if_neg ha]
      exact ih

theorem dget_dpop_ne (m : Record) (k k' : String) (hne : k ≠ k') :
    dget (dpop m k) k' = dget m k' := by
  induction m with
  | nil => rfl
  | cons hd tl ih =>
    obtain ⟨a, b⟩ := hd
    rw [dpop]
    by_cases ha : a == k
    · have hak : a = k := by simpa using ha
      subst hak
      rw [if_pos ha, dget_cons, if_neg (by simpa using hne), ih]
    · rw [if_neg ha, dget_cons, dget_cons, ih]

theorem dpop_noop (m : Record) (k : String) (h : dget m k = none) :
    dpop m k = m := by
  induction m with
  | nil => rfl
  | cons hd tl ih =>
    obtain ⟨a, b⟩ := hd
    rw [dget_cons] at h
    by_cases ha : a == k
    · rw [if_pos ha] at h
      exact absurd h (by simp)
    · rw [if_neg ha] at h
      rw [dpop, if_neg ha, ih h]

/-! ## Cleaning-pass structural lemmas -/

theorem cleanRecord_drop {m : Record} (h : pyEmptyContent m = true) :
    cleanRecord m = .ok none := by
  rw [cleanRecord, if_pos h]

theorem cleanRecord_ok_some_iff (m m' : Record) :
    cleanRecord m = .ok (some m') ↔
      pyEmptyContent m = false ∧ ∃ ts, workingTs m = .ok ts ∧
        ((isNumericLike ts = true ∧
            inRangeSec (Rat.floor (ratOfNumeric ts)) = true ∧
            m' = dset m "timestamp" (JVal.str (numeric_ts_to_iso (ratOfNumeric ts)))) ∨
         (isNumericLike ts = false ∧ ts = JVal.null ∧ m' = dpop m "timestamp") ∨
         (isNumericLike ts = false ∧ ts ≠ JVal.null ∧ m' = m)) := by
  by_cases hc : pyEmptyContent m
  · rw [cleanRecord, if_pos hc]
    simp [hc]
  · simp only [Bool.not_eq_true] at hc
    rw [cleanRecord, if_neg (by simp [hc])]
    cases hw : workingTs m with
    | error e => simp [hc]
    | ok ts =>
      simp only [hc, true_and]
      by_cases hn : isNumericLike ts
      · by_cases hr : inRangeSec (Rat.floor (ratOfNumeric ts))
        · simp only [if_pos hn, if_pos hr]
          constructor
          · intro h
            refine ⟨ts, rfl, Or.inl ⟨hn, hr, ?_⟩⟩
            exact Option.some.inj (Except.ok.inj h).symm
          · rintro ⟨ts', hts', hcase⟩
            have hts : ts' = ts := (Except.ok.inj hts').symm
            subst hts
            rcases hcase with ⟨-, -, hm⟩ | ⟨hfalse, -, -⟩ | ⟨hfalse, -, -⟩
            · rw [hm]
            · rw [hn] at hfalse; cases hfalse
            · rw [hn] at hfalse; cases hfalse
        · simp only [if_pos hn, if_neg hr]
          constructor
          · intro h; cases h
          · rintro ⟨ts', hts', hcase⟩
            have hts : ts' = ts := (Except.ok.inj hts').symm
            subst hts
            rcases hcase with ⟨-, hrr, -⟩ | ⟨hfalse, -, -⟩ | ⟨hfalse, -, -⟩
            · exact absurd hrr hr
            · rw [hn] at hfalse; cases hfalse
            · rw [hn] at hfalse; cases hfalse
      · simp only [Bool.not_eq_true] at hn
        by_cases hnull : ts = JVal.null
        · subst hnull
          simp only [hn, Bool.false_eq_true, if_neg, reduceIte]
          constructor
          · intro h
            exact ⟨JVal.null, rfl, Or.inr (Or.inl ⟨hn, rfl, Option.some.inj (Except.ok.inj h).symm⟩)⟩
          · rintro ⟨ts', hts', hcase⟩
            have hts : ts' = JVal.null := (Except.ok.inj hts').symm
            subst hts
            rcases hcase with ⟨htrue, -, -⟩ | ⟨-, -, hm⟩ | ⟨-, hne, -⟩
            · rw [hn] at htrue; cases htrue
            · rw [hm]
            · exact absurd rfl hne
        · rw [if_neg (by simp [hn]), if_neg hnull]
          constructor
          · intro h
            exact ⟨ts, rfl, Or.inr (Or.inr ⟨hn, hnull, Option.some.inj (Except.ok.inj h).symm⟩)⟩
          · rintro ⟨ts', hts', hcase⟩
            have hts : ts' = ts := (Except.ok.inj hts').symm
            subst hts
            rcases hcase with ⟨htrue, -, -⟩ | ⟨-, hnn, -⟩ | ⟨-, -, hm⟩
            · rw [hn] at htrue; cases htrue
            · exact absurd hnn hnull
            · rw [hm]

theorem dget_cleanRecord_ne {m m' : Record} (h : cleanRecord m = .ok (some m'))
    (k : String) (hk : k ≠ "timestamp") : dget m' k = dget m k := by
  rcases (cleanRecord_ok_some_iff m m').mp h with ⟨-, ts, -, hcase⟩
  rcases hcase with ⟨-, -, hm⟩ | ⟨-, -, hm⟩ | ⟨-, -, hm⟩
  · rw [hm, dget_dset_ne _ _ _ _ (Ne.symm hk)]
  · rw [hm, dget_dpop_ne _ _ _ (Ne.symm hk)]
  · rw [hm]

theorem pyEmptyContent_congr {m m' : Record}
    (h : dget m' "content" = dget m "content") :
    pyEmptyContent m' = pyEmptyContent m := by
  unfold pyEmptyContent
  rw [h]

theorem fallbackTs_congr {m m' : Record}
    (h : dget m' "metadata" = dget m "metadata") :
    fallbackTs m' = fallbackTs m := by
  unfold fallbackTs
  rw [h]

theorem cleanRecord_out_content {m m' : Record} (h : cleanRecord m = .ok (some m')) :
    pyEmptyContent m' = false := by
  have hc := ((cleanRecord_ok_some_iff m m').mp h).1
  rw [pyEmptyContent_congr (dget_cleanRecord_ne h "content" (by decide))]
  exact hc

theorem isoOfSec_length (t : Int) : (isoOfSec t).length = 20 := by
  simp [isoOfSec, String.length, pad4, pad2]

theorem isSentinel_isoOfSec (t : Int) :
    isSentinel (JVal.str (isoOfSec t)) = false := by
  have h20 := isoOfSec_length t
  unfold isSentinel
  rw [Bool.or_eq_false_iff]
  constructor
  · refine beq_eq_false_iff_ne.mpr (fun he => ?_)
    rw [he] at h20
    exact absurd h20 (by decide)
  · refine beq_eq_false_iff_ne.mpr (fun he => ?_)
    rw [he] at h20
    exact absurd h20 (by decide)

theorem cleanRecord_idem {m m' : Record} (h : cleanRecord m = .ok (some m')) :
    cleanRecord m' = .ok (some m') := by
  rcases (cleanRecord_ok_some_iff m m').mp h with ⟨hc, ts, hw, hcase⟩
  have hcout : pyEmptyContent m' = false := cleanRecord_out_content h
  rcases hcase with ⟨hn, hr, hm⟩ | ⟨hn, hnull, hm⟩ | ⟨hn, hnull, hm⟩
  · apply (cleanRecord_ok_some_iff m' m').mpr
    refine ⟨hcout, JVal.str (numeric_ts_to_iso (ratOfNumeric ts)), ?_,
      Or.inr (Or.inr ⟨rfl, by simp, rfl⟩)⟩
    unfold workingTs
    have hts' : dget m' "timestamp" =
        some (JVal.str (numeric_ts_to_iso (ratOfNumeric ts))) := by
      rw [hm]
      exact dget_dset_self _ _ _
    rw [hts']
    simp only [Option.getD_some]
    rw [if_neg (by rw [numeric_ts_to_iso, isSentinel_isoOfSec]; exact Bool.false_ne_true)]
  · subst hnull
    have hfb : fallbackTs m = .ok JVal.null := by
      unfold workingTs at hw
      by_cases hs : isSentinel ((dget m "timestamp").getD JVal.null) = true
      · rw [if_pos hs] at hw
        exact hw
      · rw [if_neg hs] at hw
        have h0 : (dget m "timestamp").getD JVal.null = JVal.null := Except.ok.inj hw
        rw [h0] at hs
        exact absurd rfl hs
    apply (cleanRecord_ok_some_iff m' m').mpr
    have hts' : dget m' "timestamp" = none := by
      rw [hm]
      exact dget_dpop_self _ _
    refine ⟨hcout, JVal.null, ?_, Or.inr (Or.inl ⟨rfl, rfl, (dpop_noop m' "timestamp" hts').symm⟩)⟩
    unfold workingTs
    rw [hts']
    simp only [Option.getD_none]
    rw [if_pos (by simp [isSentinel])]
    rw [fallbackTs_congr (m := m) (by rw [hm]; exact dget_dpop_ne _ _ _ (by decide))]
    exact hfb
  · subst hm
    exact h

theorem clean_messages_cons (m : Record) (rest : List Record) :
    clean_messages (m :: rest) =
      match cleanRecord m with
      | .error e => .error e
      | .ok none => clean_messages rest
      | .ok (some r) => (clean_messages rest).map (fun out => r :: out) := rfl

theorem clean_messages_ok_eq {msgs : List Record} {out : List Record}
    (h : clean_messages msgs = .ok out) :
    out = msgs.filterMap (fun m =>
      match cleanRecord m with
      | .ok r => r
      | .error _ => none) := by
  induction msgs generalizing out with
  | nil =>
    have : ([] : List Record) = out := Except.ok.inj h
    rw [← this]
    rfl
  | cons m rest ih =>
    rw [clean_messages_cons] at h
    cases hcr : cleanRecord m with
    | error e =>
      rw [hcr] at h
      cases h
    | ok r =>
      rw [hcr] at h
      cases r with
      | none =>
        simp only [List.filterMap_cons, hcr]
        exact ih h
      | some mr =>
        cases hrest : clean_messages rest with
        | error e =>
          rw [hrest] at h
          cases h
        | ok outr =>
          rw [hrest] at h
          simp only [Except.map] at h
          have hout : mr :: outr = out := Except.ok.inj h
          rw [← hout]
          simp only [List.filterMap_cons, hcr]
          rw [← ih hrest]

theorem clean_messages_idem_aux {msgs out : List Record}
    (h : clean_messages msgs = .ok out) :
    clean_messages out = .ok out := by
  induction msgs generalizing out with
  | nil =>
    have : ([] : List Record) = out := Except.ok.inj h
    rw [← this]
    rfl
  | cons m rest ih =>
    rw [clean_messages_cons] at h
    cases hcr : cleanRecord m with
    | error e =>
      rw [hcr] at h
      cases h
    | ok r =>
      rw [hcr] at h
      cases r with
      | none => exact ih h
      | some mr =>
        cases hrest : clean_messages rest with
        | error e =>
          rw [hrest] at h
          cases h
        | ok outr =>
          rw [hrest] at h
          simp only [Except.map] at h
          have hout : mr :: outr = out := Except.ok.inj h
          rw [← hout]
          rw [clean_messages_cons]
          rw [cleanRecord_idem hcr, ih hrest]
          rfl

theorem fallbackTs_ok_of_mapping {m : Record} (h : metadataIsMapping m = true) :
    ∃ v, fallbackTs m = .ok v := by
  unfold metadataIsMapping at h
  unfold fallbackTs
  cases hmd : dget m "metadata" with
  | none => exact ⟨_, rfl⟩
  | some v =>
    rw [hmd] at h
    cases v with
    | obj fields => exact ⟨_, rfl⟩
    | null => cases h
    | bool b => cases h
    | num q => cases h
    | str s => cases h
    | arr elems => cases h

theorem cleanRecord_ok_of {m : Record}
    (h1 : isSentinel ((dget m "timestamp").getD JVal.null) = true →
      metadataIsMapping m = true)
    (h2 : ∀ ts, workingTs m = .ok ts → isNumericLike ts = true →
      inRangeSec (Rat.floor (ratOfNumeric ts)) = true) :
    ∃ r, cleanRecord m = .ok r := by
  by_cases hc : pyEmptyContent m
  · exact ⟨none, cleanRecord_drop hc⟩
  · simp only [Bool.not_eq_true] at hc
    have hw : ∃ ts, workingTs m = .ok ts := by
      unfold workingTs
      by_cases hs : isSentinel ((dget m "timestamp").getD JVal.null) = true
      · rw [if_pos hs]
        exact fallbackTs_ok_of_mapping (h1 hs)
      · rw [if_neg hs]
        exact ⟨_, rfl⟩
    obtain ⟨ts, hts⟩ := hw
    rw [cleanRecord, if_neg (by simp [hc]), hts]
    by_cases hn : isNumericLike ts = true
    · refine ⟨some (dset m "timestamp" (JVal.str (numeric_ts_to_iso (ratOfNumeric ts)))), ?_⟩
      simp [hn, h2 ts hts hn]
    · by_cases hnull : ts = JVal.null
      · refine ⟨some (dpop m "timestamp"), ?_⟩
        simp [hnull, isNumericLike]
      · refine ⟨some m, ?_⟩
        simp [hn, hnull]

theorem clean_messages_ok_of {msgs : List Record}
    (h : ∀ m ∈ msgs,
      (isSentinel ((dget m "timestamp").getD JVal.null) = true →
        metadataIsMapping m = true) ∧
      (∀ ts, workingTs m = .ok ts → isNumericLike ts = true →
        inRangeSec (Rat.floor (ratOfNumeric ts)) = true)) :
    ∃ out, clean_messages msgs = .ok out := by
  induction msgs with
  | nil => exact ⟨[], rfl⟩
  | cons m rest ih =>
    obtain ⟨outr, houtr⟩ := ih (fun x hx => h x (List.mem_cons_of_mem m hx))
    obtain ⟨r, hr⟩ := cleanRecord_ok_of (h m (List.mem_cons_self m rest)).1
      (h m (List.mem_cons_self m rest)).2
    rw [clean_messages_cons, hr]
    cases r with
    | none => exact ⟨outr, houtr⟩
    | some mr =>
      rw [houtr]
      exact ⟨mr :: outr, rfl⟩

theorem clean_messages_out_content {msgs out : List Record}
    (h : clean_messages msgs = .ok out) :
    ∀ r ∈ out, pyEmptyContent r = false := by
  intro r hr
  rw [clean_messages_ok_eq h] at hr
  rcases List.mem_filterMap.mp hr with ⟨m, -, hf⟩
  cases hcr : cleanRecord m with
  | error e =>
    rw [hcr] at hf
    cases hf
  | ok rr =>
    rw [hcr] at hf
    cases rr with
    | none => cases hf
    | some mr =>
      have : mr = r := Option.some.inj hf
      subst this
      exact cleanRecord_out_content hcr

/-! ## Calendar correctness -/

theorem daysInYear_ge (y : Nat) : 365 ≤ daysInYear y := by
  unfold daysInYear
  split <;> omega

theorem daysBeforeYear_succ (y : Nat) (hy : 1 ≤ y) :
    daysBeforeYear (y + 1) = daysBeforeYear y + daysInYear y := by
  unfold daysBeforeYear daysInYear isLeap
  by_cases h4 : y % 4 = 0
  · by_cases h100 : y % 100 = 0
    · by_cases h400 : y % 400 = 0
      · rw [if_pos (by simp [h4, h100, h400])]
        simp only [Nat.add_sub_cancel]
        have e1 : y / 4 = (y - 1) / 4 + 1 := by omega
        have e2 : y / 100 = (y - 1) / 100 + 1 := by omega
        have e3 : y / 400 = (y - 1) / 400 + 1 := by omega
        omega
      · rw [if_neg (by simp [h4, h100, h400])]
        simp only [Nat.add_sub_cancel]
        have e1 : y / 4 = (y - 1) / 4 + 1 := by omega
        have e2 : y / 100 = (y - 1) / 100 + 1 := by omega
        have e3 : y / 400 = (y - 1) / 400 := by omega
        omega
    · rw [if_pos (by simp [h4, h100])]
      simp only [Nat.add_sub_cancel]
      have e1 : y / 4 = (y - 1) / 4 + 1 := by omega
      have e2 : y / 100 = (y - 1) / 100 := by omega
      have e3 : y % 400 ≠ 0 := by omega
      have e4 : y / 400 = (y - 1) / 400 := by omega
      omega
  · rw [if_neg (by simp [h4])]
    simp only [Nat.add_sub_cancel]
    have e1 : y / 4 = (y - 1) / 4 := by omega
    have e2 : y % 100 ≠ 0 := by omega
    have e3 : y / 100 = (y - 1) / 100 := by omega
    have e4 : y % 400 ≠ 0 := by omega
    have e5 : y / 400 = (y - 1) / 400 := by omega
    omega

theorem daysBeforeYear_era (q : Nat) : daysBeforeYear (400 * q + 1) = 146097 * q := by
  unfold daysBeforeYear
  omega

theorem daysBeforeYear_big {y : Nat} (hy : 10000 ≤ y) :
    3652059 ≤ daysBeforeYear y := by
  unfold daysBeforeYear
  omega

theorem yearLoop_spec : ∀ (f y rem y' doy : Nat), 1 ≤ y → rem < 365 * f →
    yearLoop f y rem = (y', doy) →
    daysBeforeYear y' + doy = daysBeforeYear y + rem ∧ doy < daysInYear y' ∧ 1 ≤ y' := by
  intro f
  induction f with
  | zero =>
    intro y rem y' doy hy hrem hloop
    omega
  | succ f ih =>
    intro y rem y' doy hy hrem hloop
    rw [yearLoop] at hloop
    by_cases hlt : rem < daysInYear y
    · rw [if_pos hlt] at hloop
      cases hloop
      exact ⟨rfl, hlt, hy⟩
    · rw [if_neg hlt] at hloop
      have hd365 := daysInYear_ge y
      have hrem' : rem - daysInYear y < 365 * f := by omega
      obtain ⟨e1, e2, e3⟩ := ih (y + 1) (rem - daysInYear y) y' doy (by omega) hrem' hloop
      refine ⟨?_, e2, by omega⟩
      rw [daysBeforeYear_succ y hy] at e1
      omega

theorem monthLoop_spec : ∀ (ls : List Nat) (mo rem m' r' : Nat),
    rem < ls.sum → monthLoop ls mo rem = (m', r') →
    mo ≤ m' ∧ m' - mo < ls.length ∧ ((ls.take (m' - mo)).sum + r' = rem) ∧
      ∀ len, ls[m' - mo]? = some len → r' < len := by
  intro ls
  induction ls with
  | nil =>
    intro mo rem m' r' hrem hloop
    simp at hrem
  | cons L rest ih =>
    intro mo rem m' r' hrem hloop
    rw [monthLoop] at hloop
    by_cases hlt : rem < L
    · rw [if_pos hlt] at hloop
      cases hloop
      refine ⟨Nat.le_refl mo, by simp, by simp, ?_⟩
      intro len hlen
      simp only [Nat.sub_self, List.getElem?_cons_zero, Option.some.injEq] at hlen
      omega
    · rw [if_neg hlt] at hloop
      have hsum : rem - L < rest.sum := by
        simp only [List.sum_cons] at hrem
        omega
      obtain ⟨e1, e2, e3, e4⟩ := ih (mo + 1) (rem - L) m' r' hsum hloop
      have hmo : mo ≤ m' := by omega
      have hdiff : m' - mo = (m' - (mo + 1)) + 1 := by omega
      refine ⟨hmo, by simp only [List.length_cons]; omega, ?_, ?_⟩
      · rw [hdiff]
        simp only [List.take_succ_cons, List.sum_cons]
        omega
      · intro len hlen
        rw [hdiff] at hlen
        simp only [List.getElem?_cons_succ] at hlen
        exact e4 len hlen

theorem monthLengths_sum (y : Nat) :
    (monthLengths (isLeap y)).sum = daysInYear y := by
  unfold daysInYear
  cases h : isLeap y
  · simp only [Bool.false_eq_true, if_neg, reduceIte]
    decide
  · simp only [if_pos]
    decide

theorem monthLengths_le31 (b : Bool) : ∀ x ∈ monthLengths b, x ≤ 31 := by
  cases b <;> decide

theorem civilFromDays_spec (n : Nat) (hn : n < 3652059) :
    1 ≤ (civilFromDays n).1 ∧ (civilFromDays n).1 ≤ 9999 ∧
    1 ≤ (civilFromDays n).2.1 ∧ (civilFromDays n).2.1 ≤ 12 ∧
    1 ≤ (civilFromDays n).2.2 ∧ (civilFromDays n).2.2 ≤ 31 ∧
    daysFromCivil (civilFromDays n).1 (civilFromDays n).2.1 (civilFromDays n).2.2 = n := by
  simp only [civilFromDays]
  rcases hyd : yearLoop 401 (400 * (n / 146097) + 1) (n % 146097) with ⟨y, doy⟩
  have hrem : n % 146097 < 365 * 401 := by omega
  obtain ⟨hsum, hdoy, hy⟩ :=
    yearLoop_spec 401 _ _ y doy (by omega) hrem hyd
  rw [daysBeforeYear_era] at hsum
  have hsum' : daysBeforeYear y + doy = n := by omega
  have hy9999 : y ≤ 9999 := by
    by_contra hge
    push_neg at hge
    have := daysBeforeYear_big (by omega : 10000 ≤ y)
    omega
  rcases hmd : monthLoop (monthLengths (isLeap y)) 0 doy with ⟨mi, dr⟩
  have hsumlen : doy < (monthLengths (isLeap y)).sum := by
    rw [monthLengths_sum]
    exact hdoy
  obtain ⟨-, hmlen, hmsum, hmlast⟩ := monthLoop_spec _ 0 doy mi dr hsumlen hmd
  simp only [Nat.sub_zero] at hmlen hmsum hmlast
  have hlen12 : (monthLengths (isLeap y)).length = 12 := by
    cases isLeap y <;> decide
  rw [hlen12] at hmlen
  have hmi : mi < (monthLengths (isLeap y)).length := by omega
  have hget : (monthLengths (isLeap y))[mi]? = some ((monthLengths (isLeap y))[mi]) :=
    List.getElem?_eq_getElem hmi
  have hle31 : (monthLengths (isLeap y))[mi] ≤ 31 :=
    monthLengths_le31 _ _ (List.getElem_mem hmi)
  have hdr : dr < (monthLengths (isLeap y))[mi] := hmlast _ hget
  simp only [hyd, hmd]
  refine ⟨hy, hy9999, by omega, by omega, by omega, by omega, ?_⟩
  unfold daysFromCivil
  simp only [Nat.add_sub_cancel]
  omega

/-! ## Rendering and parsing round trip -/

theorem digitVal_digitChar (d : Nat) (h : d < 10) :
    digitVal (Nat.digitChar d) = some d := by
  interval_cases d <;> decide

theorem digitVal_digitChar_mod (x : Nat) :
    digitVal (Nat.digitChar (x % 10)) = some (x % 10) :=
  digitVal_digitChar (x % 10) (Nat.mod_lt x (by decide))

theorem parseShape_pads (y mo d h mi s : Nat) :
    parseShape
      (pad4 y ++ ['-'] ++ pad2 mo ++ ['-'] ++ pad2 d ++ ['T'] ++ pad2 h ++ [':'] ++
        pad2 mi ++ [':'] ++ pad2 s ++ ['Z'])
      isoPattern = some (isoDigits y mo d h mi s) := by
  simp [parseShape, pad4, pad2, isoPattern, isoDigits, digitVal_digitChar_mod]

theorem epochOfDigits_isoDigits (y mo d h mi s : Nat) (hy : y ≤ 9999)
    (hmo : mo ≤ 99) (hd : d ≤ 99) (hh : h ≤ 99) (hmi : mi ≤ 99) (hs : s ≤ 99) :
    epochOfDigits (isoDigits y mo d h mi s) = epochOfFields y mo d h mi s := by
  unfold epochOfDigits isoDigits
  simp only [List.getD_cons_zero, List.getD_cons_succ]
  have e1 : 1000 * (y / 1000 % 10) + 100 * (y / 100 % 10) + 10 * (y / 10 % 10) + y % 10 = y := by
    omega
  have e2 : 10 * (mo / 10 % 10) + mo % 10 = mo := by omega
  have e3 : 10 * (d / 10 % 10) + d % 10 = d := by omega
  have e4 : 10 * (h / 10 % 10) + h % 10 = h := by omega
  have e5 : 10 * (mi / 10 % 10) + mi % 10 = mi := by omega
  have e6 : 10 * (s / 10 % 10) + s % 10 = s := by omega
  rw [e1, e2, e3, e4, e5, e6]

theorem epoch_of_render (off : Nat) (hoffub : off < 315537897600) :
    epochOfDigits (isoDigits (civilFromDays (off / 86400)).1
      (civilFromDays (off / 86400)).2.1 (civilFromDays (off / 86400)).2.2
      (off % 86400 / 3600) (off % 86400 % 3600 / 60) (off % 86400 % 60)) =
      minEpoch + (off : Int) := by
  have hn : off / 86400 < 3652059 := by omega
  obtain ⟨hy1, hy2, hm1, hm2, hd1, hd2, hdfc⟩ := civilFromDays_spec _ hn
  have hsod : off % 86400 < 86400 := by omega
  have hH : off % 86400 / 3600 ≤ 99 := by omega
  have hMI : off % 86400 % 3600 / 60 ≤ 99 := by omega
  have hS : off % 86400 % 60 ≤ 99 := by omega
  rw [epochOfDigits_isoDigits _ _ _ _ _ _ (by omega) (by omega) (by omega) hH hMI hS]
  unfold epochOfFields
  rw [hdfc]
  have hsum : 3600 * (off % 86400 / 3600) + 60 * (off % 86400 % 3600 / 60) +
      off % 86400 % 60 = off % 86400 := by omega
  rw [hsum]
  have hoff : 86400 * (off / 86400) + off % 86400 = off := by omega
  push_cast
  omega

theorem parseIso_isoOfSec {t : Int} (h : inRangeSec t = true) :
    isIsoShape (isoOfSec t) = true ∧ parseIso (isoOfSec t) = some t := by
  rw [inRangeSec, decide_eq_true_eq] at h
  obtain ⟨hmin, hmax⟩ := h
  have hnonneg : (0 : Int) ≤ t - minEpoch := by
    simp only [minEpoch] at hmin ⊢
    omega
  have hofft : ((t - minEpoch).toNat : Int) = t - minEpoch := Int.toNat_of_nonneg hnonneg
  have hoffub : (t - minEpoch).toNat < 315537897600 := by
    simp only [minEpoch]
    simp only [maxEpoch] at hmax
    omega
  have hdata : (isoOfSec t).data =
      pad4 (civilFromDays ((t - minEpoch).toNat / 86400)).1 ++ ['-'] ++
      pad2 (civilFromDays ((t - minEpoch).toNat / 86400)).2.1 ++ ['-'] ++
      pad2 (civilFromDays ((t - minEpoch).toNat / 86400)).2.2 ++ ['T'] ++
      pad2 ((t - minEpoch).toNat % 86400 / 3600) ++ [':'] ++
      pad2 ((t - minEpoch).toNat % 86400 % 3600 / 60) ++ [':'] ++
      pad2 ((t - minEpoch).toNat % 86400 % 60) ++ ['Z'] := rfl
  constructor
  · rw [isIsoShape, hdata, parseShape_pads]
    rfl
  · have hp : parseIso (isoOfSec t) = some (epochOfDigits (isoDigits
        (civilFromDays ((t - minEpoch).toNat / 86400)).1
        (civilFromDays ((t - minEpoch).toNat / 86400)).2.1
        (civilFromDays ((t - minEpoch).toNat / 86400)).2.2
        ((t - minEpoch).toNat % 86400 / 3600)
        ((t - minEpoch).toNat % 86400 % 3600 / 60)
        ((t - minEpoch).toNat % 86400 % 60))) := by
      rw [parseIso, hdata, parseShape_pads]
    rw [hp, epoch_of_render _ hoffub, hofft]
    have hfin : minEpoch + (t - minEpoch) = t := by ring
    rw [hfin]

/-! ## Claim C1 -/

/-- C1 counterexample: the record `{"timestamp": 5}` has no `content` key,
yet `clean_messages` drops it — the output array is empty, so the record
does not appear in the output, contrary to the claim. -/
theorem c1_counterexample :
    dget [("timestamp", JVal.num 5)] "content" = none ∧
    clean_messages [[("timestamp", JVal.num 5)]] = .ok [] ∧
    [("timestamp", JVal.num 5)] ∉ ([] : List Record) := by
  decide

/-- C1 (amended): a record whose `content` key is absent IS dropped: the
`get` default `""` makes absence compare equal to the empty string, so the
record never reaches the output. -/
theorem c1_absent_content_dropped (m : Record) (h : dget m "content" = none) :
    cleanRecord m = .ok none := by
  apply cleanRecord_drop
  unfold pyEmptyContent
  rw [h]

/-- C1 witness: the amended theorem applied to `{"timestamp": 5}`. -/
theorem c1_absent_content_dropped_witness :
    cleanRecord [("timestamp", JVal.num 5)] = .ok none :=
  c1_absent_content_dropped [("timestamp", JVal.num 5)] (by decide)

/-! ## Claim C2 -/

/-- C2 counterexample: for the record with `timestamp` `""` and
`metadata.conversation_create_time` `"abc"`, the working value after
fallback is the non-numeric, non-null string `"abc"`, but the surviving
record still carries `""` in its `timestamp` field — not the working
value, contrary to the claim. -/
theorem c2_counterexample :
    workingTs [("content", JVal.str "hi"), ("timestamp", JVal.str ""),
        ("metadata", JVal.obj (JObj.cons "conversation_create_time" (JVal.str "abc") JObj.nil))] =
      .ok (JVal.str "abc") ∧
    isNumericLike (JVal.str "abc") = false ∧
    cleanRecord [("content", JVal.str "hi"), ("timestamp", JVal.str ""),
        ("metadata", JVal.obj (JObj.cons "conversation_create_time" (JVal.str "abc") JObj.nil))] =
      .ok (some [("content", JVal.str "hi"), ("timestamp", JVal.str ""),
        ("metadata", JVal.obj (JObj.cons "conversation_create_time" (JVal.str "abc") JObj.nil))]) ∧
    dget [("content", JVal.str "hi"), ("timestamp", JVal.str ""),
        ("metadata", JVal.obj (JObj.cons "conversation_create_time" (JVal.str "abc") JObj.nil))]
      "timestamp" = some (JVal.str "") ∧
    JVal.str "" ≠ JVal.str "abc" := by
  decide

/-- C2 (amended): when the working timestamp value after fallback is
non-numeric and non-null, the record is emitted entirely unchanged — its
`timestamp` field keeps the original input value (the code writes the
working value back only in the numeric case), which coincides with the
working value exactly when no fallback was taken. -/
theorem c2_nonnumeric_left_unchanged (m : Record) (ts : JVal)
    (hc : pyEmptyContent m = false) (hw : workingTs m = .ok ts)
    (hn : isNumericLike ts = false) (hnull : ts ≠ JVal.null) :
    cleanRecord m = .ok (some m) := by
  apply (cleanRecord_ok_some_iff m m).mpr
  exact ⟨hc, ts, hw, Or.inr (Or.inr ⟨hn, hnull, rfl⟩)⟩

/-- C2 witness: the amended theorem applied to the fallback record with the
string fallback value `"abc"`. -/
theorem c2_nonnumeric_left_unchanged_witness :
    cleanRecord [("content", JVal.str "hi"), ("timestamp", JVal.str ""),
        ("metadata", JVal.obj (JObj.cons "conversation_create_time" (JVal.str "abc") JObj.nil))] =
      .ok (some [("content", JVal.str "hi"), ("timestamp", JVal.str ""),
        ("metadata", JVal.obj (JObj.cons "conversation_create_time" (JVal.str "abc") JObj.nil))]) :=
  c2_nonnumeric_left_unchanged _ (JVal.str "abc") (by decide) (by decide) (by decide) (by decide)

/-! ## Claim C3 -/

/-- C3 counterexample: the record `{"content": "hi", "metadata": null}` has
a present non-mapping `metadata`; its timestamp is missing, so the fallback
`msg.get("metadata", {}).get(...)` is evaluated on `None` and the cleaning
logic raises `AttributeError` instead of tolerating the shape. -/
theorem c3_counterexample :
    clean_messages [[("content", JVal.str "hi"), ("metadata", JVal.null)]] =
      .error PyErr.attributeError := by
  decide

/-- C3 (amended): the cleaning logic raises no error provided that every
record whose timestamp is a sentinel (missing, null, `""`, `"null"`) has
`metadata` absent or a mapping, and every numeric working timestamp lies
within `datetime`'s representable range (years 1-9999). -/
theorem c3_no_error_when_shapes_ok (msgs : List Record)
    (h : ∀ m ∈ msgs, recOkB m = true) :
    ∃ out, clean_messages msgs = .ok out := by
  apply clean_messages_ok_of
  intro m hm
  have hok := h m hm
  unfold recOkB at hok
  rw [Bool.and_eq_true] at hok
  obtain ⟨h1, h2⟩ := hok
  constructor
  · intro hs
    rw [hs] at h1
    simpa using h1
  · intro ts hts hn
    rw [hts] at h2
    simp only [hn, Bool.not_true, Bool.false_or] at h2
    exact h2

/-- C3 witness: the amended theorem applied to a record that takes the
fallback path through a genuine metadata mapping. -/
theorem c3_no_error_when_shapes_ok_witness :
    ∃ out, clean_messages [[("content", JVal.str "hi"), ("timestamp", JVal.null),
      ("metadata", JVal.obj (JObj.cons "conversation_create_time" (JVal.num 0) JObj.nil))]] =
      .ok out :=
  c3_no_error_when_shapes_ok _ (by decide)

/-! ## Claim C4 -/

/-- C4: for a surviving record whose input `timestamp` is a sentinel
(missing, null, `""`, `"null"`), if the metadata fallback yields a numeric
value `q` the output `timestamp` is the ISO-8601 UTC conversion of `q`, and
if the fallback yields null (metadata absent, key absent, or key null) the
output record has no `timestamp` key at all. -/
theorem c4_sentinel_fallback (m m' : Record)
    (h : cleanRecord m = .ok (some m'))
    (hs : isSentinel ((dget m "timestamp").getD JVal.null) = true) :
    (∀ q : ℚ, fallbackTs m = .ok (JVal.num q) →
      dget m' "timestamp" = some (JVal.str (numeric_ts_to_iso q))) ∧
    (fallbackTs m = .ok JVal.null → dget m' "timestamp" = none) := by
  rcases (cleanRecord_ok_some_iff m m').mp h with ⟨-, ts, hw, hcase⟩
  have hwf : workingTs m = fallbackTs m := by
    unfold workingTs
    rw [if_pos hs]
  rw [hwf] at hw
  constructor
  · intro q hq
    rw [hq] at hw
    have hts : ts = JVal.num q := (Except.ok.inj hw).symm
    subst hts
    rcases hcase with ⟨-, -, hm⟩ | ⟨hf, -, -⟩ | ⟨hf, -, -⟩
    · rw [hm]
      exact dget_dset_self _ _ _
    · simp [isNumericLike] at hf
    · simp [isNumericLike] at hf
  · intro hq
    rw [hq] at hw
    have hts : ts = JVal.null := (Except.ok.inj hw).symm
    subst hts
    rcases hcase with ⟨hf, -, -⟩ | ⟨-, -, hm⟩ | ⟨-, hne, -⟩
    · simp [isNumericLike] at hf
    · rw [hm]
      exact dget_dpop_self _ _
    · exact absurd rfl hne

/-- C4 witness: the theorem applied to Scenario 2 style input with
`conversation_create_time` 0; the output timestamp is the epoch rendering. -/
theorem c4_sentinel_fallback_witness :
    dget [("content", JVal.str "hi"), ("timestamp", JVal.str "1970-01-01T00:00:00Z"),
        ("metadata", JVal.obj (JObj.cons "conversation_create_time" (JVal.num 0) JObj.nil))]
      "timestamp" = some (JVal.str (numeric_ts_to_iso 0)) :=
  (c4_sentinel_fallback
    [("content", JVal.str "hi"), ("timestamp", JVal.null),
      ("metadata", JVal.obj (JObj.cons "conversation_create_time" (JVal.num 0) JObj.nil))]
    [("content", JVal.str "hi"), ("timestamp", JVal.str "1970-01-01T00:00:00Z"),
      ("metadata", JVal.obj (JObj.cons "conversation_create_time" (JVal.num 0) JObj.nil))]
    (by decide) (by decide)).1 0 (by decide)

/-! ## Claim C5 -/

/-- C5: for a surviving record whose input `timestamp` is numeric, the
output `timestamp` is a string of the exact shape `YYYY-MM-DDTHH:MM:SSZ`,
and parsing that string back as an ISO-8601 UTC instant yields the input
value truncated to whole epoch seconds (its floor). -/
theorem c5_numeric_roundtrip (m m' : Record) (q : ℚ)
    (h : cleanRecord m = .ok (some m'))
    (hts : dget m "timestamp" = some (JVal.num q)) :
    ∃ s, dget m' "timestamp" = some (JVal.str s) ∧ isIsoShape s = true ∧
      parseIso s = some (Rat.floor q) := by
  rcases (cleanRecord_ok_some_iff m m').mp h with ⟨-, ts, hw, hcase⟩
  have hw' : workingTs m = .ok (JVal.num q) := by
    unfold workingTs
    rw [hts]
    simp only [Option.getD_some]
    rw [if_neg (by simp [isSentinel])]
  rw [hw'] at hw
  have htseq : ts = JVal.num q := (Except.ok.inj hw).symm
  subst htseq
  rcases hcase with ⟨-, hr, hm⟩ | ⟨hf, -, -⟩ | ⟨hf, -, -⟩
  · refine ⟨numeric_ts_to_iso q, ?_, ?_, ?_⟩
    · rw [hm]
      exact dget_dset_self _ _ _
    · exact (parseIso_isoOfSec hr).1
    · exact (parseIso_isoOfSec hr).2
  · simp [isNumericLike] at hf
  · simp [isNumericLike] at hf

/-- C5 witness: the theorem applied to Scenario 1, `timestamp` 0. -/
theorem c5_numeric_roundtrip_witness :
    ∃ s, dget [("content", JVal.str "hi"), ("timestamp", JVal.str "1970-01-01T00:00:00Z")]
        "timestamp" = some (JVal.str s) ∧ isIsoShape s = true ∧
      parseIso s = some (Rat.floor (0 : ℚ)) :=
  c5_numeric_roundtrip
    [("content", JVal.str "hi"), ("timestamp", JVal.num 0)]
    [("content", JVal.str "hi"), ("timestamp", JVal.str "1970-01-01T00:00:00Z")]
    0 (by decide) (by decide)

/-! ## Claim C6 -/

/-- C6: the numeric-to-ISO conversion interprets its argument as seconds
since the Unix epoch in UTC, discards sub-second precision, and formats as
`YYYY-MM-DDTHH:MM:SSZ`: epoch 0 renders exactly as `1970-01-01T00:00:00Z`,
the reference instants 1700000000 and -1 render at their known UTC civil
times, and the fractional input 3/2 renders like the whole second 1. -/
theorem c6_utc_conversion :
    numeric_ts_to_iso 0 = "1970-01-01T00:00:00Z" ∧
    numeric_ts_to_iso 1700000000 = "2023-11-14T22:13:20Z" ∧
    numeric_ts_to_iso (-1) = "1969-12-31T23:59:59Z" ∧
    numeric_ts_to_iso (mkRat 3 2) = numeric_ts_to_iso 1 ∧
    numeric_ts_to_iso 1 = "1970-01-01T00:00:01Z" := by
  refine ⟨by decide, by decide, by decide, by decide, by decide⟩

/-! ## Claim C7 -/

/-- C7: a record whose `content` field is present and equal to the empty
string is dropped entirely, regardless of its other fields, and never
appears in any successful cleaning output. -/
theorem c7_empty_content_dropped (m : Record)
    (h : dget m "content" = some (JVal.str "")) :
    cleanRecord m = .ok none ∧
    ∀ (msgs out : List Record), clean_messages msgs = .ok out → m ∉ out := by
  have hempty : pyEmptyContent m = true := by
    unfold pyEmptyContent
    rw [h]
    rfl
  refine ⟨cleanRecord_drop hempty, ?_⟩
  intro msgs out hcm hmem
  have hall := clean_messages_out_content hcm m hmem
  rw [hempty] at hall
  cases hall

/-- C7 witness: Scenario 3, `{"content": "", "timestamp": 5}` is dropped
and is absent from the output of cleaning the singleton batch. -/
theorem c7_empty_content_dropped_witness :
    cleanRecord [("content", JVal.str ""), ("timestamp", JVal.num 5)] = .ok none ∧
    [("content", JVal.str ""), ("timestamp", JVal.num 5)] ∉ ([] : List Record) := by
  have h := c7_empty_content_dropped
    [("content", JVal.str ""), ("timestamp", JVal.num 5)] (by decide)
  exact ⟨h.1, h.2 [[("content", JVal.str ""), ("timestamp", JVal.num 5)]] [] (by decide)⟩

/-! ## Claim C8 -/

/-- C8: a successful cleaning output is exactly the input filtered to the
surviving records and mapped by the per-record transformation, in the same
relative order — no reordering, duplication, or insertion. -/
theorem c8_order_preserving (msgs out : List Record)
    (h : clean_messages msgs = .ok out) :
    out = msgs.filterMap (fun m =>
      match cleanRecord m with
      | .ok r => r
      | .error _ => none) :=
  clean_messages_ok_eq h

/-- C8 witness: a three-record batch whose middle record is dropped keeps
the two survivors in input order. -/
theorem c8_order_preserving_witness :
    [[("content", JVal.str "a")], [("content", JVal.str "b")]] =
      List.filterMap (fun m =>
        match cleanRecord m with
        | .ok r => r
        | .error _ => none)
      [[("content", JVal.str "a")], [("content", JVal.str "")], [("content", JVal.str "b")]] :=
  c8_order_preserving
    [[("content", JVal.str "a")], [("content", JVal.str "")], [("content", JVal.str "b")]]
    [[("content", JVal.str "a")], [("content", JVal.str "b")]]
    (by decide)

/-! ## Claim C9 -/

/-- C9: for every surviving record, every key other than `timestamp` maps
to exactly the same value in the output record as in the input record. -/
theorem c9_frame (m m' : Record) (h : cleanRecord m = .ok (some m'))
    (k : String) (hk : k ≠ "timestamp") :
    dget m' k = dget m k :=
  dget_cleanRecord_ne h k hk

/-- C9 witness: converting a numeric timestamp leaves the `role` field of
the record untouched. -/
theorem c9_frame_witness :
    dget [("content", JVal.str "hi"), ("timestamp", JVal.str "1970-01-01T00:00:00Z"),
        ("role", JVal.str "user")] "role" =
      dget [("content", JVal.str "hi"), ("timestamp", JVal.num 0),
        ("role", JVal.str "user")] "role" :=
  c9_frame
    [("content", JVal.str "hi"), ("timestamp", JVal.num 0), ("role", JVal.str "user")]
    [("content", JVal.str "hi"), ("timestamp", JVal.str "1970-01-01T00:00:00Z"),
      ("role", JVal.str "user")]
    (by decide) "role" (by decide)

/-! ## Claim C10 -/

/-- C10: the cleaning pass is idempotent — applying `clean_messages` to a
successful output returns that output unchanged. -/
theorem c10_idempotent (msgs out : List Record)
    (h : clean_messages msgs = .ok out) :
    clean_messages out = .ok out :=
  clean_messages_idem_aux h

/-- C10 witness: a batch that exercises the drop, the numeric conversion
and the key-removal paths cleans to a fixed point. -/
theorem c10_idempotent_witness :
    clean_messages
      [[("content", JVal.str "hi"), ("timestamp", JVal.str "1970-01-01T00:00:00Z")],
       [("content", JVal.str "ok")]] =
      .ok [[("content", JVal.str "hi"), ("timestamp", JVal.str "1970-01-01T00:00:00Z")],
       [("content", JVal.str "ok")]] :=
  c10_idempotent
    [[("content", JVal.str "hi"), ("timestamp", JVal.num 0)],
     [("content", JVal.str "")],
     [("content", JVal.str "ok")]]
    [[("content", JVal.str "hi"), ("timestamp", JVal.str "1970-01-01T00:00:00Z")],
     [("content", JVal.str "ok")]]
    (by decide)
